import Mathlib

/-!
Verification of the PlayerokBot promotion engine (src/main.py).

This file gives a shallow embedding of the core of the program: the
RateLimiter backoff computation, the throttling classification, the
promotion retry loop (`promote_product_with_retry`), the page-fetch retry
loop, and the per-cycle orchestration (`check_and_update_products`), and
proves properties of the embedding.

Modelling conventions:
- Remote calls are modelled by oracles (functions from the attempt index to
  an outcome) instead of real I/O; each outcome is either success or an
  exception carrying its message string.
- `random.randint(0, 10)` is modelled by an explicit `jitter` argument
  together with the finite set of values it can take.
- Timestamps are integers (seconds); `datetime.fromisoformat` failing to
  parse is modelled by `approval_date = none`.  Real time and sleeping are
  not modelled: waits are counted, not performed.
- Counters and the per-name map mirror the local variables of
  `check_and_update_products`; ghost fields (`calls`, `waits`,
  `via_fallback`, `yielded`) record facts about the control flow that the
  program only exhibits operationally.
- The marketplace library objects (ItemProfile, page_info, ...) are not part
  of src; an attribute access on them raising is modelled by the
  `outer_raise` field of an item's script, since the source catches such
  exceptions only at the cycle boundary (src/main.py:741).
-/

namespace PlayerokBot

/-- Characters of `pat` match the beginning of `s` (helper for substring search). -/
def matchHere : List Char → List Char → Bool
  | [], _ => true
  | _ :: _, [] => false
  | p :: ps, c :: cs => p == c && matchHere ps cs

/-- `hasSub pat s` : `pat` occurs contiguously in `s`. -/
def hasSub : List Char → List Char → Bool
  | pat, [] => pat.isEmpty
  | pat, c :: rest => matchHere pat (c :: rest) || hasSub pat rest

/-- Python's substring test `pat in s`. -/
def strIn (pat s : String) : Bool := hasSub pat.toList s.toList

/-- RateLimiter state: `consecutive_errors`, and whether `last_error_time` is set
(the timestamp value itself is never read anywhere in the program). -/
structure RL where
  consecutive_errors : Nat
  has_last_error_time : Bool
deriving DecidableEq

/-- RateLimiter initial state (src/main.py:363-366). -/
def rlInit : RL := ⟨0, false⟩

/-- `RateLimiter.on_error` (src/main.py:380-383). -/
def rlOnError (r : RL) : RL := ⟨r.consecutive_errors + 1, true⟩

/-- `RateLimiter.on_success` (src/main.py:385-388). -/
def rlOnSuccess (_ : RL) : RL := ⟨0, false⟩

/-- `RateLimiter.calculate_wait_time(429)` (src/main.py:368-376).
`jitter` stands for the draw of `random.randint(0, 10)`. -/
def calculate_wait_time_429 (consecutive_errors jitter : Nat) : Nat :=
  let base_wait := 5
  let exponential_wait := base_wait * 2 ^ min consecutive_errors 5
  min (exponential_wait + jitter) 120

/-- The set of values `random.randint(0, 10)` can return: both ends inclusive. -/
def jitter_values : Finset ℕ := Finset.Icc 0 10

/-- Modelled from the spec: "jitter is a uniform random integer in [0,10) seconds"
(the half-open range the spec claims for the jitter draw). -/
def jitter_values_spec : Finset ℕ := Finset.Ico 0 10

/-- Throttling classification used by `promote_product_with_retry` (src/main.py:505). -/
def promoIsRateLimited (m : String) : Bool :=
  strIn "429" m || strIn "TOO_MANY_REQUESTS" m

/-- Throttling classification used by the page-fetch retry loop (src/main.py:565-569). -/
def pageIsRateLimited (m : String) : Bool :=
  strIn "429" m || strIn "TOO_MANY_REQUESTS" m || strIn "Too many attempts" m

/-- Outcome of one remote promotion call (`publish_item` or
`increase_item_priority_status`): success, or an exception with its message. -/
inductive CallOutcome where
  | ok : CallOutcome
  | err : String → CallOutcome

/-- Result of `promote_product_with_retry`: the returned `(success, message)` pair,
the final rate-limiter state, and ghost counts of remote calls made and backoff
waits performed, plus a ghost flag marking the post-loop fallback return site. -/
structure PromoResult where
  success : Bool
  message : String
  calls : Nat
  waits : Nat
  rl : RL
  via_fallback : Bool

/-- Success message (src/main.py:499). -/
def promotedMsg (premium_name : String) : String :=
  "Продвинут со статусом: " ++ premium_name

/-- Retry-budget-exhausted message (src/main.py:525-528). -/
def exhaustedMsg (max_retries : Nat) : String :=
  "Превышен лимит попыток после " ++ toString max_retries ++ " попыток. Пропуск товара."

/-- Non-throttling failure message (src/main.py:532). -/
def otherErrMsg (m : String) : String :=
  "Ошибка при продвижении: " ++ m

/-- The attempt loop of `promote_product_with_retry` (src/main.py:488-534).
`left` is the number of loop iterations still available (`max_retries - attempt`),
so the Python guard `attempt < max_retries - 1` is `0 < left` after one iteration
is peeled off; `attempt` indexes the oracle `env` exactly as the loop variable
indexes successive remote calls. -/
def promoteGo (premium_name : String) (env : Nat → CallOutcome) (max_retries : Nat) :
    Nat → Nat → Nat → Nat → RL → PromoResult
  | 0, _, calls, waits, rl => ⟨false, "Неизвестная ошибка", calls, waits, rl, true⟩
  | left + 1, attempt, calls, waits, rl =>
    match env attempt with
    | .ok => ⟨true, promotedMsg premium_name, calls + 1, waits, rlOnSuccess rl, false⟩
    | .err m =>
      if promoIsRateLimited m then
        let rl2 := rlOnError rl
        if 0 < left then
          promoteGo premium_name env max_retries left (attempt + 1) (calls + 1) (waits + 1) rl2
        else ⟨false, exhaustedMsg max_retries, calls + 1, waits, rl2, false⟩
      else ⟨false, otherErrMsg m, calls + 1, waits, rl, false⟩

/-- `promote_product_with_retry` (src/main.py:473-534), with the remote publish /
increase-priority call abstracted into the oracle `env`. -/
def promote_product_with_retry (premium_name : String) (env : Nat → CallOutcome)
    (max_retries : Nat) (rl : RL) : PromoResult :=
  promoteGo premium_name env max_retries max_retries 0 0 0 rl

/-- Oracle script for the remote interactions of one listing: whether a library
attribute access raises outside the inner handler (caught only at the cycle
boundary), the result of `get_item_priority_statuses` (exception message, or
the name of the premium-tier offer if one exists), and the outcomes of the
promotion calls. -/
structure ItemScript where
  outer_raise : Option String
  priority : Except String (Option String)
  promo : Nat → CallOutcome

/-- A listing as the cycle sees it (src/main.py: product.name,
product.approval_date), plus its remote-interaction script. -/
structure Product where
  name : Option String
  approval_date : Option Int
  script : ItemScript

/-- One page of listings (src/main.py: item_list.items, item_list.page_info). -/
structure Page where
  items : List Product
  has_next_page : Bool

/-- The per-cycle mutable state of `check_and_update_products`
(src/main.py:539-548): the four counters, `promoted_by_name`, and the
rate limiter, plus the ghost count of listings yielded by fetched pages. -/
structure St where
  total_checked : Nat
  total_promoted : Nat
  total_skipped : Nat
  total_errors : Nat
  promoted_by_name : String → Nat
  rl : RL
  yielded : Nat

/-- State at cycle start. -/
def initSt : St := ⟨0, 0, 0, 0, fun _ => 0, rlInit, 0⟩

/-- The configuration snapshot a cycle reads: normalized include/exclude name sets,
`duplicates_limit` (-1 means unlimited), `promo_threshold_sec`, and the cycle's
clock value `now` (seconds). -/
structure Cfg where
  include_names : List String
  exclude_names : List String
  duplicates_limit : Int
  promo_threshold_sec : Int
  now : Int

/-- Whitespace trimming on both ends (Python `str.strip`), over characters. -/
def trimChars (l : List Char) : List Char :=
  ((l.dropWhile Char.isWhitespace).reverse.dropWhile Char.isWhitespace).reverse

/-- `_normalize_name` (src/main.py:396-398): trim and lowercase
(lowercasing is ASCII-only in this model). -/
def normalize_name (name : Option String) : String :=
  ⟨(trimChars (name.getD "").data).map Char.toLower⟩

/-- `promoted_by_name[k] += 1` on the defaultdict. -/
def bump (f : String → Nat) (k : String) : String → Nat :=
  fun n => if n = k then f n + 1 else f n

/-- Result of processing one listing: continue with the next listing, or an
exception escaped towards the cycle boundary. -/
inductive ItemStep where
  | next : St → ItemStep
  | raised : St → String → ItemStep

/-- Priority lookup and promotion for one listing (src/main.py:679-729):
exception during lookup counts as errored; missing premium tier counts as
skipped; a promotion failure counts as skipped when its message carries the
"Пропуск товара" marker and as errored otherwise. -/
def itemStage4 (_cfg : Cfg) (p : Product) (norm_name : String) (st : St) : ItemStep :=
  match p.script.priority with
  | .error _ => .next { st with total_errors := st.total_errors + 1 }
  | .ok none => .next { st with total_skipped := st.total_skipped + 1 }
  | .ok (some premium_name) =>
    let r := promote_product_with_retry premium_name p.script.promo 3 st.rl
    if r.success then
      .next { st with total_promoted := st.total_promoted + 1,
                      promoted_by_name := bump st.promoted_by_name norm_name,
                      rl := r.rl }
    else if strIn "Пропуск товара" r.message then
      .next { st with total_skipped := st.total_skipped + 1, rl := r.rl }
    else
      .next { st with total_errors := st.total_errors + 1, rl := r.rl }

/-- Duplicate-limit check (src/main.py:667-677). -/
def itemStage3 (cfg : Cfg) (p : Product) (norm_name : String) (st : St) : ItemStep :=
  if 0 ≤ cfg.duplicates_limit ∧
      cfg.duplicates_limit ≤ (st.promoted_by_name norm_name : Int) then
    .next { st with total_skipped := st.total_skipped + 1 }
  else itemStage4 cfg p norm_name st

/-- Approval-date parsing and the age threshold (src/main.py:642-665):
an unparseable date counts as skipped; a listing whose elapsed time is within
the threshold is passed over without touching any outcome counter. -/
def itemStage2 (cfg : Cfg) (p : Product) (norm_name : String) (st : St) : ItemStep :=
  match p.approval_date with
  | none => .next { st with total_skipped := st.total_skipped + 1 }
  | some approval =>
    let times_passed_sec : Int := cfg.now - approval
    if times_passed_sec ≤ cfg.promo_threshold_sec then .next st
    else itemStage3 cfg p norm_name st

/-- The body of the per-product loop (src/main.py:622-729): count the listing as
checked, then apply the include/exclude name filter and fall through the later
stages. -/
def processItem (cfg : Cfg) (p : Product) (st0 : St) : ItemStep :=
  let st := { st0 with total_checked := st0.total_checked + 1 }
  match p.script.outer_raise with
  | some m => .raised st m
  | none =>
    let norm_name := normalize_name p.name
    if cfg.include_names ≠ [] then
      if norm_name ∉ cfg.include_names then
        .next { st with total_skipped := st.total_skipped + 1 }
      else itemStage2 cfg p norm_name st
    else
      if cfg.exclude_names ≠ [] ∧ norm_name ∈ cfg.exclude_names then
        .next { st with total_skipped := st.total_skipped + 1 }
      else itemStage2 cfg p norm_name st

/-- The per-product loop over one page's items, propagating an escaped
exception. -/
def processItems (cfg : Cfg) : List Product → St → ItemStep
  | [], st => .next st
  | p :: rest, st =>
    match processItem cfg p st with
    | .next st2 => processItems cfg rest st2
    | .raised st2 m => .raised st2 m

/-- Outcome of one `user.get_items` call: a page, or an exception message. -/
inductive FetchOutcome where
  | page : Page → FetchOutcome
  | err : String → FetchOutcome

/-- Result of the page-fetch retry loop: a page (fetch succeeded), or failure
(the cycle ends after incrementing errored).  The `Nat` is the ghost count of
remote fetch calls made. -/
inductive FetchStep where
  | got : Page → St → Nat → FetchStep
  | failed : St → Nat → FetchStep

/-- The page-fetch retry loop (src/main.py:554-619).  `left` is the number of
loop iterations still available out of `page_max_retries`, so the Python guard
`attempt < page_max_retries - 1` is `0 < left` after one iteration is peeled
off; the `left = 0` base case is the `item_list is None` path (src/main.py:612).
A non-throttling fetch error is not retried. -/
def fetchGo (env : Nat → FetchOutcome) : Nat → Nat → Nat → St → FetchStep
  | 0, _, calls, st => .failed { st with total_errors := st.total_errors + 1 } calls
  | left + 1, attempt, calls, st =>
    match env attempt with
    | .page p => .got p { st with rl := rlOnSuccess st.rl } (calls + 1)
    | .err m =>
      if pageIsRateLimited m then
        let st2 := { st with rl := rlOnError st.rl }
        if 0 < left then fetchGo env left (attempt + 1) (calls + 1) st2
        else .failed { st2 with total_errors := st2.total_errors + 1 } (calls + 1)
      else .failed { st with total_errors := st.total_errors + 1 } (calls + 1)

/-- `page_max_retries` (src/main.py:549). -/
def page_max_retries : Nat := 5

/-- Fetch one page with retries on throttling. -/
def fetchPage (env : Nat → FetchOutcome) (st : St) : FetchStep :=
  fetchGo env page_max_retries 0 0 st

/-- How a cycle ended: pagination exhausted (normal), a page fetch failed
(early return with the summary printed), or an exception was caught at the
cycle boundary (src/main.py:741) before the summary was printed.  In every
case the final summary line is emitted from the carried state. -/
inductive CycleEnd where
  | finished : CycleEnd
  | fetchFailed : CycleEnd
  | interrupted : String → CycleEnd
deriving DecidableEq

/-- A finished cycle: its final counter state and how it ended. -/
structure CycleResult where
  st : St
  ending : CycleEnd

/-- The pagination loop of `check_and_update_products` (src/main.py:552-739)
over the finite trace of pages the remote yields: fetch a page (failure ends
the cycle), process its items (an escaped exception ends the cycle at the
boundary handler), and continue while `has_next_page`.  The ghost `yielded`
field accumulates the item count of every successfully fetched page. -/
def runPages (cfg : Cfg) : List (Nat → FetchOutcome) → St → CycleResult
  | [], st => ⟨st, .finished⟩
  | fenv :: rest, st =>
    match fetchPage fenv st with
    | .failed st2 _ => ⟨st2, .fetchFailed⟩
    | .got page st2 _ =>
      let st3 := { st2 with yielded := st2.yielded + page.items.length }
      match processItems cfg page.items st3 with
      | .raised st4 m => ⟨st4, .interrupted m⟩
      | .next st4 =>
        if page.has_next_page then runPages cfg rest st4 else ⟨st4, .finished⟩

/-- `check_and_update_products` (src/main.py:537-744): one full cycle from the
zero counter state. -/
def check_and_update_products (cfg : Cfg) (scripts : List (Nat → FetchOutcome)) :
    CycleResult :=
  runPages cfg scripts initSt

/-- The per-item name filter lets the listing through (control reaches the date
check of src/main.py:643). -/
def namePasses (cfg : Cfg) (n : String) : Bool :=
  if cfg.include_names ≠ [] then decide (n ∈ cfg.include_names)
  else !decide (cfg.exclude_names ≠ [] ∧ n ∈ cfg.exclude_names)

/-- Sum of the per-item outcome counters. -/
def outcomes (st : St) : Nat := st.total_promoted + st.total_skipped + st.total_errors

/-- The duplicate-limit invariant: every per-name success count is at most
`duplicates_limit`. -/
def dupInv (cfg : Cfg) (st : St) : Prop :=
  ∀ n, (st.promoted_by_name n : Int) ≤ cfg.duplicates_limit

/-- Concrete environment: every remote promotion call throws an HTTP 429 error. -/
def envThrottle : Nat → CallOutcome := fun _ => .err "HTTP 429"

/-- Concrete configuration: no name filters, unlimited duplicates, 30-minute
threshold, cycle clock at 100000 s. -/
def cfg0 : Cfg := ⟨[], [], -1, 1800, 100000⟩

/-- Concrete configuration: as `cfg0` but with duplicate limit 1. -/
def cfgGem : Cfg := ⟨[], [], 1, 1800, 100000⟩

/-- Item script that never raises, finds a premium offer, and promotes
successfully at the first call. -/
def okScript : ItemScript := ⟨none, .ok (some "Премиум"), fun _ => .ok⟩

/-- An old-enough listing named "Gem x100". -/
def gemProduct : Product := ⟨some "Gem x100", some 0, okScript⟩

/-- One page carrying two "Gem x100" listings, no continuation. -/
def gemScripts : List (Nat → FetchOutcome) :=
  [fun _ => .page ⟨[gemProduct, gemProduct], false⟩]

/-- A listing approved 600 s before the cycle clock (younger than the threshold). -/
def youngProduct : Product := ⟨some "Gem x100", some 99400, okScript⟩

/-- A listing with an unparseable approval date. -/
def badDateProduct : Product := ⟨some "Gem x100", none, okScript⟩

/-- A listing whose library attribute access raises "boom". -/
def boomProduct : Product := ⟨some "x", some 0, ⟨some "boom", .ok none, fun _ => .ok⟩⟩

/-- One page containing only the raising listing. -/
def boomScripts : List (Nat → FetchOutcome) := [fun _ => .page ⟨[boomProduct], false⟩]

/-- One page yielding two listings, the first of which raises. -/
def boomPairScripts : List (Nat → FetchOutcome) :=
  [fun _ => .page ⟨[boomProduct, gemProduct], false⟩]

/-- A page environment whose fetch always throws a non-throttling error. -/
def failScripts : List (Nat → FetchOutcome) := [fun _ => .err "boom"]

/-- A page environment whose fetch always throws HTTP 429. -/
def throttleFetchEnv : Nat → FetchOutcome := fun _ => .err "HTTP 429"

/-- Every remote call of the attempt loop is a throttling failure. -/
theorem promoteGo_calls_le (pn : String) (env : Nat → CallOutcome) (mr : Nat) :
    ∀ left attempt calls waits rl,
      (promoteGo pn env mr left attempt calls waits rl).calls ≤ calls + left := by
  intro left
  induction left with
  | zero => intro attempt calls waits rl; simp [promoteGo]
  | succ l ih =>
    intro attempt calls waits rl
    cases h : env attempt with
    | ok => simp [promoteGo, h]
    | err m =>
      simp only [promoteGo, h]
      split_ifs with h1 h2
      · exact (ih (attempt + 1) (calls + 1) (waits + 1) (rlOnError rl)).trans (by omega)
      · simp
      · simp

/-- When every attempt throttles, the loop exhausts the budget: failure with the
exhausted message, one call per attempt, and one wait per attempt except the last. -/
theorem promoteGo_allThrottle (pn : String) (env : Nat → CallOutcome) (mr : Nat) :
    ∀ left attempt calls waits rl, 0 < left →
      (∀ i, attempt ≤ i → i < attempt + left →
        ∃ m, env i = .err m ∧ promoIsRateLimited m = true) →
      (promoteGo pn env mr left attempt calls waits rl).success = false ∧
      (promoteGo pn env mr left attempt calls waits rl).message = exhaustedMsg mr ∧
      (promoteGo pn env mr left attempt calls waits rl).calls = calls + left ∧
      (promoteGo pn env mr left attempt calls waits rl).waits = waits + (left - 1) := by
  intro left
  induction left with
  | zero => intro attempt calls waits rl h; omega
  | succ l ih =>
    intro attempt calls waits rl _ hall
    obtain ⟨m, hm, hthr⟩ := hall attempt le_rfl (by omega)
    by_cases hl : 0 < l
    · have hrec := ih (attempt + 1) (calls + 1) (waits + 1) (rlOnError rl) hl
        (fun i hi1 hi2 => hall i (by omega) (by omega))
      simp only [promoteGo, hm, hthr, if_true, hl]
      refine ⟨hrec.1, hrec.2.1, ?_, ?_⟩
      · rw [hrec.2.2.1]; omega
      · rw [hrec.2.2.2]; omega
    · have hl0 : l = 0 := by omega
      subst hl0
      simp [promoteGo, hm, hthr]

/-- When the first k attempts throttle and attempt k fails with a non-throttling
error, the loop returns that failure immediately after k + 1 calls. -/
theorem promoteGo_firstOther (pn : String) (env : Nat → CallOutcome) (mr : Nat) :
    ∀ k left attempt calls waits rl m, k < left →
      (∀ i, attempt ≤ i → i < attempt + k →
        ∃ m2, env i = .err m2 ∧ promoIsRateLimited m2 = true) →
      env (attempt + k) = .err m → promoIsRateLimited m = false →
      (promoteGo pn env mr left attempt calls waits rl).success = false ∧
      (promoteGo pn env mr left attempt calls waits rl).message = otherErrMsg m ∧
      (promoteGo pn env mr left attempt calls waits rl).calls = calls + k + 1 := by
  intro k
  induction k with
  | zero =>
    intro left attempt calls waits rl m hk _ hm hnt
    obtain ⟨l, rfl⟩ : ∃ l, left = l + 1 := ⟨left - 1, by omega⟩
    rw [Nat.add_zero] at hm
    simp [promoteGo, hm, hnt]
  | succ kk ih =>
    intro left attempt calls waits rl m hk hall hm hnt
    obtain ⟨l, rfl⟩ : ∃ l, left = l + 1 := ⟨left - 1, by omega⟩
    obtain ⟨m2, hm2, ht2⟩ := hall attempt le_rfl (by omega)
    have hl : 0 < l := by omega
    have hm2' : env (attempt + 1 + kk) = .err m := by
      rw [show attempt + 1 + kk = attempt + (kk + 1) from by omega]; exact hm
    have hrec := ih l (attempt + 1) (calls + 1) (waits + 1) (rlOnError rl) m (by omega)
      (fun i hi1 hi2 => hall i (by omega) (by omega)) hm2' hnt
    simp only [promoteGo, hm2, ht2, if_true, hl]
    exact ⟨hrec.1, hrec.2.1, by rw [hrec.2.2]; omega⟩

/-- The attempt loop never reaches the post-loop fallback when it iterates at
least once, and its result is one of the three in-loop returns. -/
theorem promoteGo_noFallback (pn : String) (env : Nat → CallOutcome) (mr : Nat) :
    ∀ left attempt calls waits rl, 0 < left →
      (promoteGo pn env mr left attempt calls waits rl).via_fallback = false ∧
      ((promoteGo pn env mr left attempt calls waits rl).success = true ∨
       (promoteGo pn env mr left attempt calls waits rl).message = exhaustedMsg mr ∨
       ∃ m, (promoteGo pn env mr left attempt calls waits rl).message = otherErrMsg m) := by
  intro left
  induction left with
  | zero => intro attempt calls waits rl h; omega
  | succ l ih =>
    intro attempt calls waits rl _
    cases h : env attempt with
    | ok => simp [promoteGo, h]
    | err m =>
      by_cases hthr : promoIsRateLimited m
      · by_cases hl : 0 < l
        · simp only [promoteGo, h, hthr, if_true, hl]
          exact ih (attempt + 1) (calls + 1) (waits + 1) (rlOnError rl) hl
        · have hl0 : l = 0 := by omega
          subst hl0
          simp [promoteGo, h, hthr]
      · simp only [promoteGo, h]
        rw [if_neg hthr]
        exact ⟨rfl, Or.inr (Or.inr ⟨m, rfl⟩)⟩

/-- When every fetch attempt throttles, the page-fetch loop exhausts its budget:
the cycle-ending failure, with errored incremented exactly once and every other
counter untouched, after one remote call per attempt. -/
theorem fetchGo_allThrottle (env : Nat → FetchOutcome) :
    ∀ left attempt calls st, 0 < left →
      (∀ i, attempt ≤ i → i < attempt + left →
        ∃ m, env i = .err m ∧ pageIsRateLimited m = true) →
      ∃ st2, fetchGo env left attempt calls st = .failed st2 (calls + left) ∧
        st2.total_checked = st.total_checked ∧ st2.total_promoted = st.total_promoted ∧
        st2.total_skipped = st.total_skipped ∧ st2.total_errors = st.total_errors + 1 ∧
        st2.promoted_by_name = st.promoted_by_name ∧ st2.yielded = st.yielded := by
  intro left
  induction left with
  | zero => intro attempt calls st h; omega
  | succ l ih =>
    intro attempt calls st _ hall
    obtain ⟨m, hm, hthr⟩ := hall attempt le_rfl (by omega)
    by_cases hl : 0 < l
    · obtain ⟨st2, heq, hrest⟩ := ih (attempt + 1) (calls + 1)
        { st with rl := rlOnError st.rl } hl
        (fun i hi1 hi2 => hall i (by omega) (by omega))
      refine ⟨st2, ?_, hrest⟩
      simp only [fetchGo, hm, hthr, if_true, hl]
      rw [heq]
      congr 1
      omega
    · have hl0 : l = 0 := by omega
      subst hl0
      refine ⟨{ st with rl := rlOnError st.rl, total_errors := st.total_errors + 1 },
        ?_, rfl, rfl, rfl, rfl, rfl, rfl⟩
      simp [fetchGo, hm, hthr]

/-- The page-fetch loop fails without further retries at the first
non-throttling error, after k throttling attempts and that one final call. -/
theorem fetchGo_firstOther (env : Nat → FetchOutcome) :
    ∀ k left attempt calls st m, k < left →
      (∀ i, attempt ≤ i → i < attempt + k →
        ∃ m2, env i = .err m2 ∧ pageIsRateLimited m2 = true) →
      env (attempt + k) = .err m → pageIsRateLimited m = false →
      ∃ st2, fetchGo env left attempt calls st = .failed st2 (calls + k + 1) ∧
        st2.total_checked = st.total_checked ∧ st2.total_promoted = st.total_promoted ∧
        st2.total_skipped = st.total_skipped ∧ st2.total_errors = st.total_errors + 1 ∧
        st2.promoted_by_name = st.promoted_by_name ∧ st2.yielded = st.yielded := by
  intro k
  induction k with
  | zero =>
    intro left attempt calls st m hk _ hm hnt
    obtain ⟨l, rfl⟩ : ∃ l, left = l + 1 := ⟨left - 1, by omega⟩
    rw [Nat.add_zero] at hm
    refine ⟨{ st with total_errors := st.total_errors + 1 }, ?_, rfl, rfl, rfl, rfl, rfl, rfl⟩
    simp [fetchGo, hm, hnt]
  | succ kk ih =>
    intro left attempt calls st m hk hall hm hnt
    obtain ⟨l, rfl⟩ : ∃ l, left = l + 1 := ⟨left - 1, by omega⟩
    obtain ⟨m2, hm2, ht2⟩ := hall attempt le_rfl (by omega)
    have hl : 0 < l := by omega
    have hm2' : env (attempt + 1 + kk) = .err m := by
      rw [show attempt + 1 + kk = attempt + (kk + 1) from by omega]; exact hm
    obtain ⟨st2, heq, hrest⟩ := ih l (attempt + 1) (calls + 1)
      { st with rl := rlOnError st.rl } m (by omega)
      (fun i hi1 hi2 => hall i (by omega) (by omega)) hm2' hnt
    refine ⟨st2, ?_, hrest⟩
    simp only [fetchGo, hm2, ht2, if_true, hl]
    rw [heq]
    congr 1
    omega

/-- Counter bookkeeping of the page-fetch loop: a successful fetch changes no
counter; a failed fetch increments errored exactly once and nothing else. -/
theorem fetchGo_fields (env : Nat → FetchOutcome) :
    ∀ left attempt calls st,
      (∀ page st2 c, fetchGo env left attempt calls st = .got page st2 c →
        st2.total_checked = st.total_checked ∧ st2.total_promoted = st.total_promoted ∧
        st2.total_skipped = st.total_skipped ∧ st2.total_errors = st.total_errors ∧
        st2.promoted_by_name = st.promoted_by_name ∧ st2.yielded = st.yielded) ∧
      (∀ st2 c, fetchGo env left attempt calls st = .failed st2 c →
        st2.total_checked = st.total_checked ∧ st2.total_promoted = st.total_promoted ∧
        st2.total_skipped = st.total_skipped ∧ st2.total_errors = st.total_errors + 1 ∧
        st2.promoted_by_name = st.promoted_by_name ∧ st2.yielded = st.yielded) := by
  intro left
  induction left with
  | zero =>
    intro attempt calls st
    constructor
    · intro page st2 c heq
      exact FetchStep.noConfusion heq
    · intro st2 c heq
      simp only [fetchGo, FetchStep.failed.injEq] at heq
      obtain ⟨h1, _⟩ := heq
      subst h1
      exact ⟨rfl, rfl, rfl, rfl, rfl, rfl⟩
  | succ l ih =>
    intro attempt calls st
    cases h : env attempt with
    | page pg =>
      constructor
      · intro page st2 c heq
        simp only [fetchGo, h, FetchStep.got.injEq] at heq
        obtain ⟨_, h2, _⟩ := heq
        subst h2
        exact ⟨rfl, rfl, rfl, rfl, rfl, rfl⟩
      · intro st2 c heq
        simp only [fetchGo, h] at heq
        exact FetchStep.noConfusion heq
    | err m =>
      by_cases hthr : pageIsRateLimited m
      · by_cases hl : 0 < l
        · constructor
          · intro page st2 c heq
            simp only [fetchGo, h, hthr, if_true, hl] at heq
            exact ((ih (attempt + 1) (calls + 1) { st with rl := rlOnError st.rl }).1
              page st2 c heq)
          · intro st2 c heq
            simp only [fetchGo, h, hthr, if_true, hl] at heq
            exact ((ih (attempt + 1) (calls + 1) { st with rl := rlOnError st.rl }).2
              st2 c heq)
        · constructor
          · intro page st2 c heq
            simp only [fetchGo, h, hthr, if_true, hl, if_false] at heq
            exact FetchStep.noConfusion heq
          · intro st2 c heq
            simp only [fetchGo, h, hthr, if_true, hl, if_false,
              FetchStep.failed.injEq] at heq
            obtain ⟨h1, _⟩ := heq
            subst h1
            exact ⟨rfl, rfl, rfl, rfl, rfl, rfl⟩
      · constructor
        · intro page st2 c heq
          simp only [fetchGo, h] at heq
          rw [if_neg hthr] at heq
          exact FetchStep.noConfusion heq
        · intro st2 c heq
          simp only [fetchGo, h] at heq
          rw [if_neg hthr] at heq
          simp only [FetchStep.failed.injEq] at heq
          obtain ⟨h1, _⟩ := heq
          subst h1
          exact ⟨rfl, rfl, rfl, rfl, rfl, rfl⟩

/-- Shape of the promotion stage for one listing: always continues; checked and
yielded untouched; at most one outcome counter incremented; the per-name map
is unchanged or bumped at the listing's name. -/
theorem itemStage4_spec (cfg : Cfg) (p : Product) (norm : String) (st : St) :
    ∃ st2, itemStage4 cfg p norm st = .next st2 ∧
      st2.total_checked = st.total_checked ∧
      st2.yielded = st.yielded ∧
      outcomes st2 ≤ outcomes st + 1 ∧
      (st2.promoted_by_name = st.promoted_by_name ∨
        st2.promoted_by_name = bump st.promoted_by_name norm) := by
  cases hp : p.script.priority with
  | error e =>
    refine ⟨{ st with total_errors := st.total_errors + 1 }, ?_, rfl, rfl, ?_, Or.inl rfl⟩
    · simp [itemStage4, hp]
    · simp only [outcomes]; omega
  | ok op =>
    cases op with
    | none =>
      refine ⟨{ st with total_skipped := st.total_skipped + 1 }, ?_, rfl, rfl, ?_, Or.inl rfl⟩
      · simp [itemStage4, hp]
      · simp only [outcomes]; omega
    | some pname =>
      by_cases hs : (promote_product_with_retry pname p.script.promo 3 st.rl).success = true
      · refine ⟨{ st with
            total_promoted := st.total_promoted + 1,
            promoted_by_name := bump st.promoted_by_name norm,
            rl := (promote_product_with_retry pname p.script.promo 3 st.rl).rl },
          ?_, rfl, rfl, ?_, Or.inr rfl⟩
        · simp [itemStage4, hp, hs]
        · simp only [outcomes]; omega
      · by_cases hsk : strIn "Пропуск товара"
            (promote_product_with_retry pname p.script.promo 3 st.rl).message = true
        · refine ⟨{ st with
              total_skipped := st.total_skipped + 1,
              rl := (promote_product_with_retry pname p.script.promo 3 st.rl).rl },
            ?_, rfl, rfl, ?_, Or.inl rfl⟩
          · simp [itemStage4, hp, hs, hsk]
          · simp only [outcomes]; omega
        · refine ⟨{ st with
              total_errors := st.total_errors + 1,
              rl := (promote_product_with_retry pname p.script.promo 3 st.rl).rl },
            ?_, rfl, rfl, ?_, Or.inl rfl⟩
          · simp [itemStage4, hp, hs, hsk]
          · simp only [outcomes]; omega

/-- Shape of the duplicate-limit stage: as `itemStage4_spec`, and the per-name
map is bumped only when the duplicate-limit guard did not fire. -/
theorem itemStage3_spec (cfg : Cfg) (p : Product) (norm : String) (st : St) :
    ∃ st2, itemStage3 cfg p norm st = .next st2 ∧
      st2.total_checked = st.total_checked ∧
      st2.yielded = st.yielded ∧
      outcomes st2 ≤ outcomes st + 1 ∧
      (st2.promoted_by_name = st.promoted_by_name ∨
        (st2.promoted_by_name = bump st.promoted_by_name norm ∧
         ¬(0 ≤ cfg.duplicates_limit ∧
           cfg.duplicates_limit ≤ (st.promoted_by_name norm : Int)))) := by
  by_cases hdup : 0 ≤ cfg.duplicates_limit ∧
      cfg.duplicates_limit ≤ (st.promoted_by_name norm : Int)
  · refine ⟨{ st with total_skipped := st.total_skipped + 1 }, ?_, rfl, rfl, ?_, Or.inl rfl⟩
    · simp only [itemStage3]; rw [if_pos hdup]
    · simp only [outcomes]; omega
  · obtain ⟨st2, heq, h1, h2, h3, h4⟩ := itemStage4_spec cfg p norm st
    refine ⟨st2, ?_, h1, h2, h3, h4.imp id (fun h => ⟨h, hdup⟩)⟩
    simp only [itemStage3]; rw [if_neg hdup]; exact heq

/-- Shape of the date stage: as `itemStage3_spec`; an unparseable date or a
too-young listing changes at most the skipped counter. -/
theorem itemStage2_spec (cfg : Cfg) (p : Product) (norm : String) (st : St) :
    ∃ st2, itemStage2 cfg p norm st = .next st2 ∧
      st2.total_checked = st.total_checked ∧
      st2.yielded = st.yielded ∧
      outcomes st2 ≤ outcomes st + 1 ∧
      (st2.promoted_by_name = st.promoted_by_name ∨
        (st2.promoted_by_name = bump st.promoted_by_name norm ∧
         ¬(0 ≤ cfg.duplicates_limit ∧
           cfg.duplicates_limit ≤ (st.promoted_by_name norm : Int)))) := by
  cases hd : p.approval_date with
  | none =>
    refine ⟨{ st with total_skipped := st.total_skipped + 1 }, ?_, rfl, rfl, ?_, Or.inl rfl⟩
    · simp [itemStage2, hd]
    · simp only [outcomes]; omega
  | some t =>
    by_cases hth : cfg.now - t ≤ cfg.promo_threshold_sec
    · refine ⟨st, ?_, rfl, rfl, by omega, Or.inl rfl⟩
      simp [itemStage2, hd, hth]
    · obtain ⟨st2, heq, h⟩ := itemStage3_spec cfg p norm st
      refine ⟨st2, ?_, h⟩
      simp only [itemStage2, hd]
      rw [if_neg hth]
      exact heq

/-- Shape of processing one listing: the raise case increments only checked;
the continue case increments checked exactly once, at most one outcome
counter, and bumps the per-name map only below the duplicate limit. -/
theorem processItem_spec (cfg : Cfg) (p : Product) (st : St) :
    (∀ m, p.script.outer_raise = some m →
      processItem cfg p st = .raised { st with total_checked := st.total_checked + 1 } m) ∧
    (p.script.outer_raise = none →
      ∃ st2, processItem cfg p st = .next st2 ∧
        st2.total_checked = st.total_checked + 1 ∧
        st2.yielded = st.yielded ∧
        outcomes st2 ≤ outcomes st + 1 ∧
        (st2.promoted_by_name = st.promoted_by_name ∨
          (st2.promoted_by_name = bump st.promoted_by_name (normalize_name p.name) ∧
           ¬(0 ≤ cfg.duplicates_limit ∧
             cfg.duplicates_limit
               ≤ (st.promoted_by_name (normalize_name p.name) : Int))))) := by
  constructor
  · intro m hm
    simp [processItem, hm]
  · intro hr
    simp only [processItem, hr]
    by_cases hinc : cfg.include_names ≠ []
    · rw [if_pos hinc]
      by_cases hmem : normalize_name p.name ∉ cfg.include_names
      · rw [if_pos hmem]
        refine ⟨_, rfl, rfl, rfl, ?_, Or.inl rfl⟩
        simp only [outcomes]; omega
      · rw [if_neg hmem]
        obtain ⟨st2, heq, h1, h2, h3, h4⟩ := itemStage2_spec cfg p (normalize_name p.name)
          { st with total_checked := st.total_checked + 1 }
        exact ⟨st2, heq, h1, h2, h3, h4⟩
    · rw [if_neg hinc]
      by_cases hexc : cfg.exclude_names ≠ [] ∧ normalize_name p.name ∈ cfg.exclude_names
      · rw [if_pos hexc]
        refine ⟨_, rfl, rfl, rfl, ?_, Or.inl rfl⟩
        simp only [outcomes]; omega
      · rw [if_neg hexc]
        obtain ⟨st2, heq, h1, h2, h3, h4⟩ := itemStage2_spec cfg p (normalize_name p.name)
          { st with total_checked := st.total_checked + 1 }
        exact ⟨st2, heq, h1, h2, h3, h4⟩

/-- Facts about a listing whose processing continues. -/
theorem processItem_next_facts (cfg : Cfg) (p : Product) (st st2 : St)
    (heq : processItem cfg p st = .next st2) :
    st2.total_checked = st.total_checked + 1 ∧ st2.yielded = st.yielded ∧
    outcomes st2 ≤ outcomes st + 1 := by
  have hspec := processItem_spec cfg p st
  cases hro : p.script.outer_raise with
  | some m =>
    rw [hspec.1 m hro] at heq
    exact ItemStep.noConfusion heq
  | none =>
    obtain ⟨st3, heq2, h1, h2, h3, _⟩ := hspec.2 hro
    rw [heq2] at heq
    injection heq with h
    subst h
    exact ⟨h1, h2, h3⟩

/-- Facts about a listing whose processing raises towards the boundary. -/
theorem processItem_raised_facts (cfg : Cfg) (p : Product) (st st2 : St) (m : String)
    (heq : processItem cfg p st = .raised st2 m) :
    st2.total_checked = st.total_checked + 1 ∧ st2.yielded = st.yielded ∧
    outcomes st2 = outcomes st := by
  have hspec := processItem_spec cfg p st
  cases hro : p.script.outer_raise with
  | none =>
    obtain ⟨st3, heq2, _, _, _, _⟩ := hspec.2 hro
    rw [heq2] at heq
    exact ItemStep.noConfusion heq
  | some m2 =>
    rw [hspec.1 m2 hro] at heq
    injection heq with h1 h2
    subst h1
    exact ⟨rfl, rfl, rfl⟩

/-- One listing preserves the duplicate-limit invariant. -/
theorem processItem_dupInv (cfg : Cfg) (hK : 0 ≤ cfg.duplicates_limit)
    (p : Product) (st : St) (hinv : dupInv cfg st) :
    (∀ st2, processItem cfg p st = .next st2 → dupInv cfg st2) ∧
    (∀ st2 m, processItem cfg p st = .raised st2 m → dupInv cfg st2) := by
  have hspec := processItem_spec cfg p st
  constructor
  · intro st2 heq
    cases hro : p.script.outer_raise with
    | some m =>
      rw [hspec.1 m hro] at heq
      exact ItemStep.noConfusion heq
    | none =>
      obtain ⟨st3, heq2, _, _, _, hby⟩ := hspec.2 hro
      rw [heq2] at heq
      injection heq with h
      subst h
      cases hby with
      | inl hsame => intro n; rw [hsame]; exact hinv n
      | inr hb =>
        obtain ⟨hbump, hguard⟩ := hb
        intro n
        rw [hbump]
        unfold bump
        by_cases hn : n = normalize_name p.name
        · rw [if_pos hn, hn]
          have h2 : ¬ cfg.duplicates_limit
              ≤ (st.promoted_by_name (normalize_name p.name) : Int) :=
            fun hc => hguard ⟨hK, hc⟩
          omega
        · rw [if_neg hn]
          exact hinv n
  · intro st2 m heq
    cases hro : p.script.outer_raise with
    | none =>
      obtain ⟨st3, heq2, _, _, _, _⟩ := hspec.2 hro
      rw [heq2] at heq
      exact ItemStep.noConfusion heq
    | some m2 =>
      rw [hspec.1 m2 hro] at heq
      injection heq with h1 h2
      subst h1
      exact hinv

/-- Counter bookkeeping of one page's item loop. -/
theorem processItems_spec (cfg : Cfg) :
    ∀ (items : List Product) (st : St),
      (∀ st2, processItems cfg items st = .next st2 →
        st2.total_checked = st.total_checked + items.length ∧
        st2.yielded = st.yielded ∧
        outcomes st2 + st.total_checked ≤ outcomes st + st2.total_checked) ∧
      (∀ st2 m, processItems cfg items st = .raised st2 m →
        st2.total_checked ≤ st.total_checked + items.length ∧
        st2.yielded = st.yielded ∧
        outcomes st2 + st.total_checked ≤ outcomes st + st2.total_checked) := by
  intro items
  induction items with
  | nil =>
    intro st
    constructor
    · intro st2 heq
      simp only [processItems] at heq
      injection heq with h
      subst h
      exact ⟨by simp, rfl, le_rfl⟩
    · intro st2 m heq
      simp only [processItems] at heq
      exact ItemStep.noConfusion heq
  | cons p rest ih =>
    intro st
    cases hpi : processItem cfg p st with
    | next stm =>
      obtain ⟨hc, hy, ho⟩ := processItem_next_facts cfg p st stm hpi
      constructor
      · intro st2 heq
        simp only [processItems, hpi] at heq
        obtain ⟨h1, h2, h3⟩ := (ih stm).1 st2 heq
        refine ⟨?_, by rw [h2, hy], ?_⟩
        · simp only [List.length_cons]; omega
        · omega
      · intro st2 m heq
        simp only [processItems, hpi] at heq
        obtain ⟨h1, h2, h3⟩ := (ih stm).2 st2 m heq
        refine ⟨?_, by rw [h2, hy], ?_⟩
        · simp only [List.length_cons]; omega
        · omega
    | raised stm m =>
      obtain ⟨hc, hy, ho⟩ := processItem_raised_facts cfg p st stm m hpi
      constructor
      · intro st2 heq
        simp only [processItems, hpi] at heq
        exact ItemStep.noConfusion heq
      · intro st2 m2 heq
        simp only [processItems, hpi] at heq
        injection heq with h1 h2
        subst h1
        refine ⟨?_, hy, by omega⟩
        simp only [List.length_cons]; omega

/-- The item loop preserves the duplicate-limit invariant. -/
theorem processItems_dupInv (cfg : Cfg) (hK : 0 ≤ cfg.duplicates_limit) :
    ∀ (items : List Product) (st : St), dupInv cfg st →
      (∀ st2, processItems cfg items st = .next st2 → dupInv cfg st2) ∧
      (∀ st2 m, processItems cfg items st = .raised st2 m → dupInv cfg st2) := by
  intro items
  induction items with
  | nil =>
    intro st hinv
    constructor
    · intro st2 heq
      simp only [processItems] at heq
      injection heq with h
      subst h
      exact hinv
    · intro st2 m heq
      simp only [processItems] at heq
      exact ItemStep.noConfusion heq
  | cons p rest ih =>
    intro st hinv
    have hone := processItem_dupInv cfg hK p st hinv
    cases hpi : processItem cfg p st with
    | next stm =>
      have hinv2 := hone.1 stm hpi
      constructor
      · intro st2 heq
        simp only [processItems, hpi] at heq
        exact (ih stm hinv2).1 st2 heq
      · intro st2 m heq
        simp only [processItems, hpi] at heq
        exact (ih stm hinv2).2 st2 m heq
    | raised stm m =>
      have hinv2 := hone.2 stm m hpi
      constructor
      · intro st2 heq
        simp only [processItems, hpi] at heq
        exact ItemStep.noConfusion heq
      · intro st2 m2 heq
        simp only [processItems, hpi] at heq
        injection heq with h1 h2
        subst h1
        exact hinv2

/-- C2 (counterexample): the claim draws the jitter from the half-open range
[0, 10), but `random.randint(0, 10)` is inclusive on both ends, so 10 is a
possible jitter value (excluded by the claimed range), and with it the
throttled wait at zero consecutive errors is 15, above the maximum of 14 the
claimed jitter range allows. -/
theorem C2_counterexample :
    10 ∈ jitter_values ∧ 10 ∉ jitter_values_spec ∧
    calculate_wait_time_429 0 10 = 15 := by decide

/-- C2 (amended): for every consecutive-error count n and every jitter value
the code can draw — a uniform random integer in the closed range [0, 10] —
the throttled wait equals min(5 * 2^min(n, 5) + jitter, 120) seconds and
never exceeds 120 seconds. -/
theorem C2_throttled_wait_formula (n j : Nat) (_hj : j ∈ jitter_values) :
    calculate_wait_time_429 n j = min (5 * 2 ^ min n 5 + j) 120 ∧
    calculate_wait_time_429 n j ≤ 120 :=
  ⟨rfl, Nat.min_le_right _ _⟩

/-- C2 witness: the amended formula evaluated at n = 3, jitter = 10. -/
theorem C2_witness :
    calculate_wait_time_429 3 10 = min (5 * 2 ^ min 3 5 + 10) 120 ∧
    calculate_wait_time_429 3 10 ≤ 120 :=
  C2_throttled_wait_formula 3 10 (by decide)

/-- C8: with the jitter draw held fixed at any value the code can produce, the
throttled wait duration is non-decreasing in the consecutive-error count, and
it never exceeds the 120-second cap. -/
theorem C8_backoff_monotone (j n1 n2 : Nat) (_hj : j ∈ jitter_values) (h : n1 ≤ n2) :
    calculate_wait_time_429 n1 j ≤ calculate_wait_time_429 n2 j ∧
    calculate_wait_time_429 n2 j ≤ 120 := by
  refine ⟨?_, Nat.min_le_right _ _⟩
  simp only [calculate_wait_time_429]
  have hp : 2 ^ min n1 5 ≤ 2 ^ min n2 5 :=
    Nat.pow_le_pow_right (by norm_num) (min_le_min h le_rfl)
  have hsum : 5 * 2 ^ min n1 5 + j ≤ 5 * 2 ^ min n2 5 + j := by omega
  exact min_le_min hsum le_rfl

/-- C8 witness: monotonicity and the cap evaluated at counts 0 ≤ 2, jitter 7. -/
theorem C8_witness :
    calculate_wait_time_429 0 7 ≤ calculate_wait_time_429 2 7 ∧
    calculate_wait_time_429 2 7 ≤ 120 :=
  C8_backoff_monotone 7 0 2 (by decide) (by decide)

/-- C3: `promote_product_with_retry` makes at most `max_retries` remote calls;
when every attempt fails with a throttling error it returns failure carrying
the distinguishable retry-budget-exhausted message after exactly `max_retries`
calls and `max_retries - 1` backoff waits (no wait follows the final failure);
and when attempt k is the first non-throttling failure it returns failure
immediately after k + 1 calls, consuming no further attempts. -/
theorem C3_retry_budget (pn : String) (env : Nat → CallOutcome) (mr : Nat) (rl : RL)
    (hmr : 1 ≤ mr) :
    (promote_product_with_retry pn env mr rl).calls ≤ mr ∧
    ((∀ i, i < mr → ∃ m, env i = .err m ∧ promoIsRateLimited m = true) →
      (promote_product_with_retry pn env mr rl).success = false ∧
      (promote_product_with_retry pn env mr rl).message = exhaustedMsg mr ∧
      (promote_product_with_retry pn env mr rl).calls = mr ∧
      (promote_product_with_retry pn env mr rl).waits = mr - 1) ∧
    (∀ k m, k < mr →
      (∀ i, i < k → ∃ m2, env i = .err m2 ∧ promoIsRateLimited m2 = true) →
      env k = .err m → promoIsRateLimited m = false →
      (promote_product_with_retry pn env mr rl).success = false ∧
      (promote_product_with_retry pn env mr rl).message = otherErrMsg m ∧
      (promote_product_with_retry pn env mr rl).calls = k + 1) := by
  simp only [promote_product_with_retry]
  refine ⟨?_, ?_, ?_⟩
  · have := promoteGo_calls_le pn env mr mr 0 0 0 rl
    omega
  · intro hall
    have h := promoteGo_allThrottle pn env mr mr 0 0 0 rl (by omega)
      (fun i hi1 hi2 => hall i (by omega))
    refine ⟨h.1, h.2.1, by rw [h.2.2.1]; omega, by rw [h.2.2.2]; omega⟩
  · intro k m hk hall hm hnt
    have h := promoteGo_firstOther pn env mr k mr 0 0 0 rl m hk
      (fun i hi1 hi2 => hall i (by omega)) (by rw [Nat.zero_add]; exact hm) hnt
    exact ⟨h.1, h.2.1, by rw [h.2.2]; omega⟩

/-- C3 witness: three attempts, every call throttled, concrete evaluation. -/
theorem C3_witness :
    (promote_product_with_retry "Премиум" envThrottle 3 rlInit).calls ≤ 3 ∧
    (promote_product_with_retry "Премиум" envThrottle 3 rlInit).success = false ∧
    (promote_product_with_retry "Премиум" envThrottle 3 rlInit).message = exhaustedMsg 3 ∧
    (promote_product_with_retry "Премиум" envThrottle 3 rlInit).calls = 3 ∧
    (promote_product_with_retry "Премиум" envThrottle 3 rlInit).waits = 2 := by
  have h := C3_retry_budget "Премиум" envThrottle 3 rlInit (by decide)
  have h2 := h.2.1 (fun i _ => ⟨"HTTP 429", rfl, by decide⟩)
  exact ⟨h.1, h2.1, h2.2.1, h2.2.2.1, h2.2.2.2⟩

/-- C9: for every max_retries ≥ 1 the attempt loop always returns from inside —
the post-loop fallback return of (False, "Неизвестная ошибка") is unreachable —
and the result is a success, the retry-budget-exhausted failure, or an
other-error failure. -/
theorem C9_loop_always_returns (pn : String) (env : Nat → CallOutcome) (mr : Nat) (rl : RL)
    (hmr : 1 ≤ mr) :
    (promote_product_with_retry pn env mr rl).via_fallback = false ∧
    ((promote_product_with_retry pn env mr rl).success = true ∨
     (promote_product_with_retry pn env mr rl).message = exhaustedMsg mr ∨
     ∃ m, (promote_product_with_retry pn env mr rl).message = otherErrMsg m) :=
  promoteGo_noFallback pn env mr mr 0 0 0 rl (by omega)

/-- C9 witness: the fallback is not taken when every call throttles. -/
theorem C9_witness :
    (promote_product_with_retry "Премиум" envThrottle 3 rlInit).via_fallback = false ∧
    ((promote_product_with_retry "Премиум" envThrottle 3 rlInit).success = true ∨
     (promote_product_with_retry "Премиум" envThrottle 3 rlInit).message = exhaustedMsg 3 ∨
     ∃ m, (promote_product_with_retry "Премиум" envThrottle 3 rlInit).message = otherErrMsg m) :=
  C9_loop_always_returns "Премиум" envThrottle 3 rlInit (by decide)

/-- C10: a remote error message containing "Too many attempts" but neither
"429" nor "TOO_MANY_REQUESTS" is classified as throttling by the page-fetch
retry loop, which then retries through its whole budget of
`page_max_retries` calls before failing, but as non-throttling by
`promote_product_with_retry`, which returns failure immediately after one
call with no backoff wait. -/
theorem C10_classification_differs (m : String)
    (h1 : strIn "Too many attempts" m = true)
    (h2 : strIn "429" m = false)
    (h3 : strIn "TOO_MANY_REQUESTS" m = false) :
    pageIsRateLimited m = true ∧
    promoIsRateLimited m = false ∧
    (∀ pn rl, (promote_product_with_retry pn (fun _ => .err m) 3 rl).success = false ∧
      (promote_product_with_retry pn (fun _ => .err m) 3 rl).message = otherErrMsg m ∧
      (promote_product_with_retry pn (fun _ => .err m) 3 rl).calls = 1 ∧
      (promote_product_with_retry pn (fun _ => .err m) 3 rl).waits = 0) ∧
    (∀ st, ∃ st2, fetchPage (fun _ => .err m) st = .failed st2 page_max_retries ∧
      st2.total_errors = st.total_errors + 1) := by
  have hpro : promoIsRateLimited m = false := by
    simp [promoIsRateLimited, h2, h3]
  have hpage : pageIsRateLimited m = true := by
    simp [pageIsRateLimited, h1]
  refine ⟨hpage, hpro, ?_, ?_⟩
  · intro pn rl
    simp [promote_product_with_retry, promoteGo, hpro]
  · intro st
    obtain ⟨st2, heq, hrest⟩ := fetchGo_allThrottle (fun _ => .err m)
      page_max_retries 0 0 st (by decide) (fun i _ _ => ⟨m, rfl, hpage⟩)
    exact ⟨st2, by rw [fetchPage, heq, Nat.zero_add], hrest.2.2.2.1⟩

/-- A listing that passes the name filter proceeds to the date stage. -/
theorem processItem_namePass (cfg : Cfg) (p : Product) (st : St)
    (hr : p.script.outer_raise = none)
    (hn : namePasses cfg (normalize_name p.name) = true) :
    processItem cfg p st =
      itemStage2 cfg p (normalize_name p.name)
        { st with total_checked := st.total_checked + 1 } := by
  simp only [processItem, hr]
  by_cases hinc : cfg.include_names ≠ []
  · have hmem : normalize_name p.name ∈ cfg.include_names := by
      unfold namePasses at hn
      rw [if_pos hinc] at hn
      exact of_decide_eq_true hn
    rw [if_pos hinc, if_neg (not_not_intro hmem)]
  · have hnex : ¬(cfg.exclude_names ≠ [] ∧ normalize_name p.name ∈ cfg.exclude_names) := by
      unfold namePasses at hn
      rw [if_neg hinc] at hn
      rintro ⟨ha, hb⟩
      rcases (by simpa using hn :
          cfg.exclude_names = [] ∨ normalize_name p.name ∉ cfg.exclude_names) with h | h
      · exact ha h
      · exact h hb
    rw [if_neg hinc, if_neg hnex]

/-- End-of-cycle counter accounting for the pagination loop, relative to any
starting state satisfying the invariant. -/
theorem runPages_accounting (cfg : Cfg) :
    ∀ (scripts : List (Nat → FetchOutcome)) (st : St) (r : CycleResult),
      runPages cfg scripts st = r →
      outcomes st ≤ st.total_checked → st.total_checked = st.yielded →
      outcomes r.st ≤ r.st.total_checked + 1 ∧
      (r.ending ≠ .fetchFailed → outcomes r.st ≤ r.st.total_checked) ∧
      r.st.total_checked ≤ r.st.yielded ∧
      ((∀ m, r.ending ≠ .interrupted m) → r.st.total_checked = r.st.yielded) := by
  intro scripts
  induction scripts with
  | nil =>
    intro st r heq h1 h2
    simp only [runPages] at heq
    subst heq
    exact ⟨le_trans h1 (Nat.le_succ _), fun _ => h1, le_of_eq h2, fun _ => h2⟩
  | cons fenv rest ih =>
    intro st r heq h1 h2
    simp only [runPages] at heq
    cases hf : fetchPage fenv st with
    | failed st2 c =>
      simp only [hf] at heq
      subst heq
      obtain ⟨hc, hp, hs, he, hb, hy⟩ :=
        (fetchGo_fields fenv page_max_retries 0 0 st).2 st2 c hf
      simp only [outcomes] at h1 ⊢
      refine ⟨by omega, fun hne => absurd rfl hne, by omega, fun _ => by omega⟩
    | got page st2 c =>
      simp only [hf] at heq
      obtain ⟨hc, hp, hs, he, hb, hy⟩ :=
        (fetchGo_fields fenv page_max_retries 0 0 st).1 page st2 c hf
      cases hpi : processItems cfg page.items
          { st2 with yielded := st2.yielded + page.items.length } with
      | raised st4 m =>
        simp only [hpi] at heq
        subst heq
        obtain ⟨hc4, hy4, ho4⟩ := (processItems_spec cfg page.items _).2 st4 m hpi
        simp only [outcomes] at ho4 hc4 hy4 h1 ⊢
        refine ⟨by omega, fun _ => by omega, by omega, fun hni => absurd rfl (hni m)⟩
      | next st4 =>
        simp only [hpi] at heq
        obtain ⟨hc4, hy4, ho4⟩ := (processItems_spec cfg page.items _).1 st4 hpi
        simp only [outcomes] at ho4 hc4 hy4 h1
        have hout4 : st4.total_promoted + st4.total_skipped + st4.total_errors
            ≤ st4.total_checked := by omega
        have hcy4 : st4.total_checked = st4.yielded := by omega
        by_cases hn : page.has_next_page = true
        · rw [if_pos hn] at heq
          exact ih st4 r heq (by simp only [outcomes]; omega) hcy4
        · rw [if_neg hn] at heq
          subst heq
          simp only [outcomes]
          refine ⟨by omega, fun _ => by omega, by omega, fun _ => by omega⟩

/-- The pagination loop preserves the duplicate-limit invariant. -/
theorem runPages_dupInv (cfg : Cfg) (hK : 0 ≤ cfg.duplicates_limit) :
    ∀ (scripts : List (Nat → FetchOutcome)) (st : St), dupInv cfg st →
      dupInv cfg (runPages cfg scripts st).st := by
  intro scripts
  induction scripts with
  | nil => intro st hinv; exact hinv
  | cons fenv rest ih =>
    intro st hinv
    cases hf : fetchPage fenv st with
    | failed st2 c =>
      have hb := ((fetchGo_fields fenv page_max_retries 0 0 st).2 st2 c hf).2.2.2.2.1
      simp only [runPages, hf]
      intro n
      rw [hb]
      exact hinv n
    | got page st2 c =>
      have hb := ((fetchGo_fields fenv page_max_retries 0 0 st).1 page st2 c hf).2.2.2.2.1
      have hinv2 : dupInv cfg { st2 with yielded := st2.yielded + page.items.length } := by
        intro n
        show (st2.promoted_by_name n : Int) ≤ cfg.duplicates_limit
        rw [hb]
        exact hinv n
      simp only [runPages, hf]
      cases hpi : processItems cfg page.items
          { st2 with yielded := st2.yielded + page.items.length } with
      | raised st4 m =>
        simp only [hpi]
        exact (processItems_dupInv cfg hK page.items _ hinv2).2 st4 m hpi
      | next st4 =>
        simp only [hpi]
        have hinv4 := (processItems_dupInv cfg hK page.items _ hinv2).1 st4 hpi
        by_cases hn : page.has_next_page = true
        · rw [if_pos hn]
          exact ih st4 hinv4
        · rw [if_neg hn]
          exact hinv4

/-- C1: when the configured duplicate limit K is non-negative, promoted_by_name
never exceeds K: the bound holds for every name in the final state of every
cycle, and processing any single listing preserves it at every intermediate
state; moreover a listing that passes the name and age checks while its name's
count has already reached the limit is skipped by the duplicate check alone —
the resulting state is exactly the input with checked and skipped incremented,
so no remote promotion call, per-name bump or rate-limiter change occurs. -/
theorem C1_duplicate_limit (cfg : Cfg) (hK : 0 ≤ cfg.duplicates_limit) :
    (∀ scripts name,
      ((check_and_update_products cfg scripts).st.promoted_by_name name : Int)
        ≤ cfg.duplicates_limit) ∧
    (∀ p st, dupInv cfg st →
      (∀ st2, processItem cfg p st = .next st2 → dupInv cfg st2) ∧
      (∀ st2 m, processItem cfg p st = .raised st2 m → dupInv cfg st2)) ∧
    (∀ p st t, p.script.outer_raise = none →
      namePasses cfg (normalize_name p.name) = true →
      p.approval_date = some t →
      cfg.promo_threshold_sec < cfg.now - t →
      cfg.duplicates_limit ≤ (st.promoted_by_name (normalize_name p.name) : Int) →
      processItem cfg p st = .next { st with
        total_checked := st.total_checked + 1,
        total_skipped := st.total_skipped + 1 }) := by
  refine ⟨?_, ?_, ?_⟩
  · intro scripts name
    exact runPages_dupInv cfg hK scripts initSt (fun n => by simpa [initSt] using hK) name
  · intro p st hinv
    exact processItem_dupInv cfg hK p st hinv
  · intro p st t hr hn hd hage hcount
    rw [processItem_namePass cfg p st hr hn]
    simp only [itemStage2, hd]
    rw [if_neg (by omega)]
    simp only [itemStage3]
    rw [if_pos ⟨hK, hcount⟩]

/-- C1 witness: duplicate limit 1, one page with two eligible "Gem x100"
listings — the final per-name count obeys the limit. -/
theorem C1_witness :
    ((check_and_update_products cfgGem gemScripts).st.promoted_by_name "gem x100" : Int)
      ≤ cfgGem.duplicates_limit :=
  (C1_duplicate_limit cfgGem (by decide)).1 gemScripts "gem x100"

/-- C4 (counterexample): both conjuncts of the claim fail on the code.  First,
a cycle whose only page fetch fails with a non-throttling error ends with
errored = 1 and zero listings checked, so promoted + skipped + errored = 1
exceeds total_checked = 0: errored also counts page-fetch failures, which have
no corresponding checked listing.  Second, a successfully fetched page yielding
two listings whose first listing raises a library exception ends the cycle with
total_checked = 1 while the yield of successfully fetched pages is 2, so the
claimed equality of total_checked with that yield also fails. -/
theorem C4_counterexample :
    (outcomes (check_and_update_products cfg0 failScripts).st = 1 ∧
      (check_and_update_products cfg0 failScripts).st.total_checked = 0 ∧
      ¬ outcomes (check_and_update_products cfg0 failScripts).st
          ≤ (check_and_update_products cfg0 failScripts).st.total_checked) ∧
    ((check_and_update_products cfg0 boomPairScripts).st.total_checked = 1 ∧
      (check_and_update_products cfg0 boomPairScripts).st.yielded = 2 ∧
      (check_and_update_products cfg0 boomPairScripts).ending = .interrupted "boom" ∧
      (check_and_update_products cfg0 boomPairScripts).st.total_checked
        ≠ (check_and_update_products cfg0 boomPairScripts).st.yielded) := by
  decide

/-- C4 (amended): at the end of every cycle, promoted + skipped + errored ≤
total_checked + 1, the possible extra unit being exactly a terminal page-fetch
failure: when the cycle does not end on a fetch failure the sum is ≤
total_checked.  total_checked never exceeds the number of listings yielded
across successfully fetched pages, with equality whenever no library exception
interrupted item processing (listings of a page whose fetch failed are never
counted, since only fetched pages contribute to the yield). -/
theorem C4_outcome_accounting (cfg : Cfg) (scripts : List (Nat → FetchOutcome)) :
    outcomes (check_and_update_products cfg scripts).st
      ≤ (check_and_update_products cfg scripts).st.total_checked + 1 ∧
    ((check_and_update_products cfg scripts).ending ≠ .fetchFailed →
      outcomes (check_and_update_products cfg scripts).st
        ≤ (check_and_update_products cfg scripts).st.total_checked) ∧
    (check_and_update_products cfg scripts).st.total_checked
      ≤ (check_and_update_products cfg scripts).st.yielded ∧
    ((∀ m, (check_and_update_products cfg scripts).ending ≠ .interrupted m) →
      (check_and_update_products cfg scripts).st.total_checked
        = (check_and_update_products cfg scripts).st.yielded) :=
  runPages_accounting cfg scripts initSt (check_and_update_products cfg scripts)
    rfl (by decide) rfl

/-- C4 witness: a completed two-listing cycle satisfies the amended accounting. -/
theorem C4_witness :
    outcomes (check_and_update_products cfgGem gemScripts).st
      ≤ (check_and_update_products cfgGem gemScripts).st.total_checked ∧
    (check_and_update_products cfgGem gemScripts).st.total_checked
      = (check_and_update_products cfgGem gemScripts).st.yielded := by
  have h := C4_outcome_accounting cfgGem gemScripts
  refine ⟨h.2.1 (by decide), h.2.2.2 ?_⟩
  intro m hm
  have : (check_and_update_products cfgGem gemScripts).ending = CycleEnd.finished := by
    decide
  rw [this] at hm
  exact CycleEnd.noConfusion hm

/-- C5 (counterexample): a library exception raised while processing the only
listing of the only page is caught at the cycle boundary, but the boundary
handler does not increment the errored counter: the cycle ends interrupted
with errored = 0, contradicting the claimed conversion of the exception into
an errored-count increment. -/
theorem C5_counterexample :
    (check_and_update_products cfg0 boomScripts).ending = .interrupted "boom" ∧
    (check_and_update_products cfg0 boomScripts).st.total_errors = 0 ∧
    (check_and_update_products cfg0 boomScripts).st.total_checked = 1 := by
  decide

/-- C5 (amended): an exception escaping item processing is caught at the cycle
boundary: nothing propagates to the scheduler and the cycle still ends with its
summary reported from the state at the exception; but the boundary handler only
logs — it increments no counter, in particular not errored (the raise itself
leaves every outcome counter untouched; only checked was already incremented
for the raising listing). -/
theorem C5_boundary_catch (cfg : Cfg) :
    (∀ p st m, p.script.outer_raise = some m →
      processItem cfg p st = .raised { st with total_checked := st.total_checked + 1 } m) ∧
    (∀ fenv rest st page st2 c st3 m,
      fetchPage fenv st = .got page st2 c →
      processItems cfg page.items
          { st2 with yielded := st2.yielded + page.items.length } = .raised st3 m →
      runPages cfg (fenv :: rest) st = ⟨st3, .interrupted m⟩) := by
  constructor
  · intro p st m hm
    simp [processItem, hm]
  · intro fenv rest st page st2 c st3 m hf hp
    simp only [runPages, hf, hp]

/-- C5 witness: the boundary catch evaluated on the concrete raising listing. -/
theorem C5_witness :
    runPages cfg0 boomScripts initSt
      = ⟨{ initSt with total_checked := 1, yielded := 1 }, .interrupted "boom"⟩ :=
  (C5_boundary_catch cfg0).2 (fun _ => .page ⟨[boomProduct], false⟩) [] initSt
    ⟨[boomProduct], false⟩ initSt 1 { initSt with total_checked := 1, yielded := 1 }
    "boom" rfl rfl

/-- C6: if the head page's fetch is throttled on every attempt of the page
budget — or fails with a non-throttling error after any number of throttled
attempts — the cycle ends in the reporting state `fetchFailed` (nothing is
raised to the scheduler), the errored counter is incremented exactly once for
that page, and every counter accumulated from previously processed pages is
preserved. -/
theorem C6_fetch_failure (cfg : Cfg) (fenv : Nat → FetchOutcome)
    (rest : List (Nat → FetchOutcome)) (st : St) :
    ((∀ i, i < page_max_retries → ∃ m, fenv i = .err m ∧ pageIsRateLimited m = true) →
      ∃ st2, runPages cfg (fenv :: rest) st = ⟨st2, .fetchFailed⟩ ∧
        st2.total_checked = st.total_checked ∧ st2.total_promoted = st.total_promoted ∧
        st2.total_skipped = st.total_skipped ∧ st2.total_errors = st.total_errors + 1 ∧
        st2.promoted_by_name = st.promoted_by_name) ∧
    (∀ k m, k < page_max_retries →
      (∀ i, i < k → ∃ m2, fenv i = .err m2 ∧ pageIsRateLimited m2 = true) →
      fenv k = .err m → pageIsRateLimited m = false →
      ∃ st2, runPages cfg (fenv :: rest) st = ⟨st2, .fetchFailed⟩ ∧
        st2.total_checked = st.total_checked ∧ st2.total_promoted = st.total_promoted ∧
        st2.total_skipped = st.total_skipped ∧ st2.total_errors = st.total_errors + 1 ∧
        st2.promoted_by_name = st.promoted_by_name) := by
  constructor
  · intro hall
    obtain ⟨st2, heq, h1, h2, h3, h4, h5, h6⟩ := fetchGo_allThrottle fenv
      page_max_retries 0 0 st (by decide) (fun i hi1 hi2 => hall i (by omega))
    refine ⟨st2, ?_, h1, h2, h3, h4, h5⟩
    simp only [runPages, fetchPage, heq]
  · intro k m hk hall hm hnt
    obtain ⟨st2, heq, h1, h2, h3, h4, h5, h6⟩ := fetchGo_firstOther fenv k
      page_max_retries 0 0 st m hk (fun i hi1 hi2 => hall i (by omega))
      (by rw [Nat.zero_add]; exact hm) hnt
    refine ⟨st2, ?_, h1, h2, h3, h4, h5⟩
    simp only [runPages, fetchPage, heq]

/-- C6 witness: a first page whose every fetch attempt throws HTTP 429. -/
theorem C6_witness :
    ∃ st2, runPages cfg0 [throttleFetchEnv] initSt = ⟨st2, .fetchFailed⟩ ∧
      st2.total_checked = initSt.total_checked ∧
      st2.total_promoted = initSt.total_promoted ∧
      st2.total_skipped = initSt.total_skipped ∧
      st2.total_errors = initSt.total_errors + 1 ∧
      st2.promoted_by_name = initSt.promoted_by_name :=
  (C6_fetch_failure cfg0 throttleFetchEnv [] initSt).1
    (fun i _ => ⟨"HTTP 429", rfl, by decide⟩)

/-- C7: for a listing that passes the name filter (and whose library attribute
access does not raise): an unparseable approval timestamp makes the listing
count as skipped with every other counter — errored in particular — untouched;
a parsed timestamp whose elapsed time is at most the promotion-age threshold
leaves every outcome counter untouched, the skipped counter in particular. -/
theorem C7_date_checks (cfg : Cfg) (p : Product) (st : St)
    (hr : p.script.outer_raise = none)
    (hn : namePasses cfg (normalize_name p.name) = true) :
    (p.approval_date = none →
      processItem cfg p st = .next { st with
        total_checked := st.total_checked + 1,
        total_skipped := st.total_skipped + 1 }) ∧
    (∀ t, p.approval_date = some t → cfg.now - t ≤ cfg.promo_threshold_sec →
      processItem cfg p st = .next { st with total_checked := st.total_checked + 1 }) := by
  constructor
  · intro hd
    rw [processItem_namePass cfg p st hr hn]
    simp [itemStage2, hd]
  · intro t hd hth
    rw [processItem_namePass cfg p st hr hn]
    simp only [itemStage2, hd]
    rw [if_pos hth]

/-- C7 witness: an unparseable-date listing and a 10-minute-old listing under a
30-minute threshold. -/
theorem C7_witness :
    processItem cfg0 badDateProduct initSt
      = .next { initSt with total_checked := 1, total_skipped := 1 } ∧
    processItem cfg0 youngProduct initSt
      = .next { initSt with total_checked := 1 } := by
  refine ⟨(C7_date_checks cfg0 badDateProduct initSt rfl (by decide)).1 rfl, ?_⟩
  exact (C7_date_checks cfg0 youngProduct initSt rfl (by decide)).2 99400 rfl (by decide)

/-- C10 witness: the concrete message "Too many attempts". -/
theorem C10_witness :
    pageIsRateLimited "Too many attempts" = true ∧
    promoIsRateLimited "Too many attempts" = false ∧
    (promote_product_with_retry "Премиум" (fun _ => .err "Too many attempts") 3 rlInit).calls = 1 ∧
    (∃ st2, fetchPage (fun _ => .err "Too many attempts") initSt
        = .failed st2 page_max_retries ∧
      st2.total_errors = initSt.total_errors + 1) := by
  have h := C10_classification_differs "Too many attempts" (by decide) (by decide) (by decide)
  exact ⟨h.1, h.2.1, (h.2.2.1 "Премиум" rlInit).2.2.1, h.2.2.2 initSt⟩

end PlayerokBot
